import Mathlib

/-!
Shallow embedding of the expression-tree and text-layout engine of the
pytools repository:

* operators and their precedence table:
  src/src/gamma/common/expression/operator/_operator.py
* expression nodes and constructors:
  src/src/pytools/expression/_expression.py
* textual forms and layout:
  src/src/gamma/common/expression/_text.py

Machine integers do not occur; all lengths and widths are natural numbers.
The file models the subset of the system exercised by the claims: operator
registry, expression construction (`Operation`, `CollectionLiteral`,
`make_expression`), structural equality and hashing (`eq_` / `hash_`), and
the textual layout pipeline (`TextualForm.from_expression`, `to_lines`,
`to_single_line`, `PythonExpressionFormatter.to_text`).
-/

/-- The kind of an operator: unary or binary
(classes `UnaryOperator` / `BinaryOperator` in `_operator.py`). -/
inductive OperatorKind where
  | unary
  | binary
deriving DecidableEq, Repr

/-- An operator; per `Operator.__eq__` in `_operator.py`, equality is by
symbol and kind (`type(self) == type(other) and self.symbol == other.symbol`). -/
structure Operator where
  symbol : String
  kind : OperatorKind
deriving DecidableEq, Repr

namespace Op

def DOT : Operator := ⟨".", .binary⟩

def POW : Operator := ⟨"**", .binary⟩

def POS : Operator := ⟨"+", .unary⟩

def NEG : Operator := ⟨"-", .unary⟩

def MUL : Operator := ⟨"*", .binary⟩

def MATMUL : Operator := ⟨"@", .binary⟩

def DIV : Operator := ⟨"/", .binary⟩

def TRUE_DIV : Operator := DIV

def FLOOR_DIV : Operator := ⟨"//", .binary⟩

def INVERT : Operator := ⟨"~", .unary⟩

def MOD : Operator := ⟨"%", .binary⟩

def ADD : Operator := ⟨"+", .binary⟩

def SUB : Operator := ⟨"-", .binary⟩

def LSHIFT : Operator := ⟨"<<", .binary⟩

def RSHIFT : Operator := ⟨">>", .binary⟩

def AND_BITWISE : Operator := ⟨"&", .binary⟩

def XOR_BITWISE : Operator := ⟨"^", .binary⟩

def OR_BITWISE : Operator := ⟨"|", .binary⟩

def IN : Operator := ⟨"in", .binary⟩

def NOT_IN : Operator := ⟨"not in", .binary⟩

def IS : Operator := ⟨"is", .binary⟩

def IS_NOT : Operator := ⟨"is not", .binary⟩

def LT : Operator := ⟨"<", .binary⟩

def LE : Operator := ⟨"<=", .binary⟩

def GT : Operator := ⟨">", .binary⟩

def GE : Operator := ⟨">=", .binary⟩

def NEQ_ : Operator := ⟨"<>", .binary⟩

def NEQ : Operator := ⟨"!=", .binary⟩

def EQ : Operator := ⟨"==", .binary⟩

def NOT : Operator := ⟨"not", .unary⟩

def AND : Operator := ⟨"and", .binary⟩

def OR : Operator := ⟨"or", .binary⟩

def LAMBDA : Operator := ⟨"lambda", .unary⟩

def ASSIGN : Operator := ⟨"=", .binary⟩

def COLON : Operator := ⟨":", .binary⟩

def COMMA : Operator := ⟨",", .binary⟩

def NONE : Operator := ⟨"", .binary⟩

/-- Modelled from the spec: the operator `SLICE` is referenced by
`make_expression` and by the padding rules of `_text.py`, but its definition
belongs to the pytools operator module
(src/src/pytools/expression/operator/_operator.py) which is missing from the
source snapshot; the spec renders slices with positional colons
("a slice-like value becomes a SLICE-infix operation"; "renders as
`start::step`, preserving positional colons"), so SLICE is a binary
operator whose symbol is the colon. -/
def SLICE : Operator := ⟨":", .binary⟩

end Op

/-- The tiers of the precedence table `__OPERATOR_PRECEDENCE_ORDER` of
`_operator.py`, listed tightest-binding first, exactly as in the source. -/
def OPERATOR_PRECEDENCE_ORDER : List (List Operator) :=
  [[Op.DOT],
   [Op.POW],
   [Op.INVERT],
   [Op.POS, Op.NEG],
   [Op.MUL, Op.MATMUL, Op.DIV, Op.FLOOR_DIV, Op.MOD],
   [Op.ADD, Op.SUB],
   [Op.LSHIFT, Op.RSHIFT],
   [Op.AND_BITWISE],
   [Op.XOR_BITWISE],
   [Op.OR_BITWISE],
   [Op.IN, Op.NOT_IN, Op.IS, Op.IS_NOT, Op.LT, Op.LE, Op.GT, Op.GE],
   [Op.NEQ_, Op.NEQ, Op.EQ],
   [Op.NOT],
   [Op.AND],
   [Op.OR],
   [Op.LAMBDA],
   [Op.ASSIGN, Op.COLON],
   [Op.COMMA]]

/-- The tier index of an operator in the precedence table
(`OPERATOR_PRECEDENCE` in `_operator.py`): 0 for the tightest tier (DOT),
17 for the loosest (COMMA), none for operators outside the table. -/
def OPERATOR_PRECEDENCE (o : Operator) : Option Nat :=
  OPERATOR_PRECEDENCE_ORDER.findIdx? (fun tier => tier.contains o)

/-- Modelled from the spec: the numeric `precedence` attribute of operators
lives in the pytools operator module
(src/src/pytools/expression/operator/_operator.py), which is missing from the
source snapshot (the gamma `Operator` class carries no precedence attribute
at all).  The layout code kept in `_text.py` wraps a child in parentheses
when `child.precedence_ < parent.precedence_` (first operand) or
`child.precedence_ <= parent.precedence_` (later operands), and the spec
requires that exactly the loose-or-tied children are parenthesized
(`a + b * c` without parentheses around the product, `(a + b) * c` with
them), so tighter-binding tiers must compare numerically greater: the
precedence of a table operator is 18 minus its tier index, and an operator
not found in the table receives the loosest possible value 0. -/
def Operator.precedence (o : Operator) : Nat :=
  match OPERATOR_PRECEDENCE o with
  | some i => 18 - i
  | none => 0

/-- Modelled from the spec: the tightest possible precedence, reported by
atomic and bracketed expressions ("Atomic expressions and bracketed
expressions report the tightest possible precedence"); numerically above
every operator tier. -/
def MAX_PRECEDENCE : Nat := 19

/-- A literal value of the host language, as far as the claims need it.
`obj` stands for an arbitrary non-container object together with its
optional `__name__` attribute (`getattr(value, "__name__", None)`). -/
inductive Value where
  | none
  | bool (b : Bool)
  | int (n : Int)
  | str (s : String)
  | obj (oid : Nat) (name : Option String)
deriving DecidableEq, Repr

/-- One character of the Python `repr` of a string: backslash, the quote
character in use, and the common control characters are escaped; other
(printable) characters stand for themselves. -/
def pyReprChar (quote : Char) (c : Char) : String :=
  if c = '\\' then "\\\\"
  else if c = quote then "\\" ++ String.singleton quote
  else if c = '\n' then "\\n"
  else if c = '\t' then "\\t"
  else if c = '\r' then "\\r"
  else String.singleton c

/-- The Python `repr` of a string: single-quoted, except double-quoted when
the string contains a single quote but no double quote. -/
def pyReprStr (s : String) : String :=
  let quote : Char := if s.contains '\'' && !(s.contains '"') then '"' else '\''
  String.singleton quote ++ String.join (s.data.map (pyReprChar quote)) ++ String.singleton quote

/-- The Python `repr` of a value, used by `Lit.text_`. -/
def Value.pyRepr : Value → String
  | .none => "None"
  | .bool true => "True"
  | .bool false => "False"
  | .int n => toString n
  | .str s => pyReprStr s
  | .obj oid _ => "<object at " ++ toString oid ++ ">"

/-- The `__name__` attribute of a value, if any (`getattr(value, "__name__",
None)` in `make_expression` and `Id.__init__`). -/
def Value.pyName : Value → Option String
  | .obj _ n => n
  | _ => Option.none

/-- A pair of brackets (`BracketPair` in `_expression.py`). -/
structure BracketPair where
  opening : String
  closing : String
deriving DecidableEq, Repr

def BRACKETS_ROUND : BracketPair := ⟨"(", ")"⟩

def BRACKETS_SQUARE : BracketPair := ⟨"[", "]"⟩

def BRACKETS_CURLY : BracketPair := ⟨"\x7b", "\x7d"⟩

def BRACKETS_ANGLED : BracketPair := ⟨"<", ">"⟩

/-- The concrete class of a collection literal
(`ListLiteral` / `TupleLiteral` / `SetLiteral` / `DictLiteral` /
`_Invocation` in `_expression.py`); the class identity enters structural
equality and hashing via `type(self)`. -/
inductive CollectionKind where
  | list
  | tuple
  | set
  | dict
  | invocation
deriving DecidableEq, Repr

/-- An expression node.  Each constructor corresponds to one concrete class
of `pytools/expression/_expression.py`:

* `lit` = `Lit`, `ident` = `Id`, `epsilon` = `Epsilon`;
* `collection` = the `CollectionLiteral` subclasses (tagged by
  `CollectionKind`), storing the derived subexpression and the element
  list exactly as the Python object stores `_subexpression` and
  `_elements`;
* `unaryOp` = `UnaryOperation`, `keywordArg` = `KeywordArgument`,
  `dictEntry` = `DictEntry`, `call` = `Call`, `index` = `Index`,
  `lambdaDef` = `LambdaDefinition`, `lambdaE` = `Lambda` (each a
  `PrefixExpression`; `call`/`index` store the `_Invocation` collection
  node as their body);
* `operation` = `Operation` (the `Attr` subclass always builds a DOT
  operation and is represented by the same constructor);
* `alias` = `ExpressionAlias`. -/
inductive Expression where
  | lit (value : Value)
  | ident (name : String)
  | epsilon
  | collection (kind : CollectionKind) (brackets : BracketPair)
      (subexpression : Expression) (elements : List Expression)
  | unaryOp (operator : Operator) (operand : Expression)
  | keywordArg (name : String) (value : Expression)
  | dictEntry (key : Expression) (value : Expression)
  | call (callee : Expression) (args : Expression)
  | index (coll : Expression) (args : Expression)
  | lambdaDef (params : Expression) (body : Expression)
  | lambdaE (body : Expression)
  | operation (operator : Operator) (operands : List Expression)
  | aliasE (e : Expression)
deriving Repr

/-- The `precedence_` property of an expression, per class:
atomic and bracketed expressions report `MAX_PRECEDENCE`; operations report
their operator's precedence; the prefix classes report the fixed
`_PRECEDENCE` of their class; an alias reports the precedence of the
expression it wraps. -/
def Expression.precedence_ : Expression → Nat
  | .lit _ => MAX_PRECEDENCE
  | .ident _ => MAX_PRECEDENCE
  | .epsilon => MAX_PRECEDENCE
  | .collection _ _ _ _ => MAX_PRECEDENCE
  | .unaryOp o _ => o.precedence
  | .keywordArg _ _ => Op.EQ.precedence
  | .dictEntry _ _ => Op.COLON.precedence
  | .call _ _ => Op.DOT.precedence
  | .index _ _ => Op.DOT.precedence
  | .lambdaDef _ _ => Op.LAMBDA.precedence
  | .lambdaE _ => Op.LAMBDA.precedence
  | .operation o _ => o.precedence
  | .aliasE e => e.precedence_

/-- An error raised at construction time (`TypeError` / `ValueError`). -/
inductive PyError where
  | typeError (msg : String)
  | valueError (msg : String)
deriving DecidableEq, Repr

/-- The associative flattening step of `Operation.__init__`: when the first
operand is itself an `Operation` with the identical operator, its operand
list replaces it; otherwise the operand list is unchanged. -/
def Operation.flattenOperands (operator : Operator) (operands : List Expression) :
    List Expression :=
  match operands with
  | .operation op1 ops1 :: rest =>
      if op1 = operator then ops1 ++ rest else operands
  | _ => operands

/-- `Operation.__init__` of `pytools/expression/_expression.py`: requires a
binary operator (else `TypeError`), at least two operands (else
`ValueError`), then flattens a first operand that shares the operator.
The Python constructor maps `make_expression` over the raw operands; the
embedding takes operands that are already expressions, on which
`make_expression` is the identity. -/
def Operation.make (operator : Operator) (operands : List Expression) :
    Except PyError Expression :=
  if operator.kind ≠ OperatorKind.binary then
    .error (.typeError "arg operator must be an BinaryOperator")
  else if operands.length < 2 then
    .error (.valueError "operation requires at least two operands")
  else
    .ok (.operation operator (Operation.flattenOperands operator operands))

/-- Total wrapper of `Operation.make` for internal call sites where the
checks cannot fail (binary operator, at least two operands). -/
def Operation.makeD (operator : Operator) (operands : List Expression) : Expression :=
  match Operation.make operator operands with
  | .ok e => e
  | .error _ => .epsilon

/-- `CollectionLiteral.__init__`: zero elements yield the `Epsilon`
subexpression, one element is the subexpression itself, two or more are
grouped in a COMMA operation.  The Python constructor maps
`make_expression` over the raw elements; the embedding takes elements that
are already expressions. -/
def CollectionLiteral.make (kind : CollectionKind) (brackets : BracketPair)
    (elements : List Expression) : Expression :=
  let subexpression :=
    match elements with
    | [] => Expression.epsilon
    | [e] => e
    | _ => Operation.makeD Op.COMMA elements
  .collection kind brackets subexpression elements

/-- `ListLiteral`: square brackets. -/
def ListLiteral.make (elements : List Expression) : Expression :=
  CollectionLiteral.make .list BRACKETS_SQUARE elements

/-- `TupleLiteral`: round brackets. -/
def TupleLiteral.make (elements : List Expression) : Expression :=
  CollectionLiteral.make .tuple BRACKETS_ROUND elements

/-- `SetLiteral`: curly brackets. -/
def SetLiteral.make (elements : List Expression) : Expression :=
  CollectionLiteral.make .set BRACKETS_CURLY elements

/-- `_Invocation`: the bracketed argument list of a call or index. -/
def Invocation.make (brackets : BracketPair) (args : List Expression) : Expression :=
  CollectionLiteral.make .invocation brackets args

/-- `Call.__init__`: callee plus a round-bracketed `_Invocation` body. -/
def Call.make (callee : Expression) (args : List Expression) : Expression :=
  .call callee (Invocation.make BRACKETS_ROUND args)

/-- `Index.__init__`: collection plus a square-bracketed `_Invocation` body. -/
def Index.make (coll : Expression) (keys : List Expression) : Expression :=
  .index coll (Invocation.make BRACKETS_SQUARE keys)

/-- The subexpression accessor `subexpression_` of singleton expressions
(bracketed expressions and aliases); other node kinds have no such
property, for which the embedding returns `epsilon`. -/
def Expression.subexpressionOf : Expression → Expression
  | .collection _ _ s _ => s
  | .aliasE e => e
  | _ => .epsilon

/-- A Python input value handed to `make_expression`, by the `isinstance`
categories that function distinguishes, in source order: an `Expression`, a
`FrozenExpression`, an object exposing `to_expression`
(`HasExpressionRepr`), a string, a list, a tuple, a set, a dict, a slice,
some other iterable (with the name of its type), or any other object. -/
inductive PyValue where
  | expression (e : Expression)
  | frozen (e : Expression)
  | hasRepr (e : Expression)
  | str (s : String)
  | list (xs : List PyValue)
  | tuple (xs : List PyValue)
  | set (xs : List PyValue)
  | dict (pairs : List (PyValue × PyValue))
  | slice (start stop step : Option PyValue)
  | iterable (typeName : String) (xs : List PyValue)
  | other (value : Value)
deriving Repr

mutual

/-- `make_expression` of `pytools/expression/_expression.py`, branch for
branch in source order.  The final branch checks
`getattr(value, "__name__", None)`: a truthy name yields `Id(value)`,
anything else `Lit(value)`. -/
def makeExpression : PyValue → Expression
  | .expression e => e
  | .frozen e => e
  | .hasRepr e => e
  | .str s => .lit (.str s)
  | .list xs => ListLiteral.make (makeExpressionList xs)
  | .tuple xs => TupleLiteral.make (makeExpressionList xs)
  | .set xs => SetLiteral.make (makeExpressionList xs)
  | .dict pairs => CollectionLiteral.make .dict BRACKETS_CURLY (makeDictEntries pairs)
  | .slice start stop step =>
      let a0 := makeOptionArg start
      let a1 := makeOptionArg stop
      let a2 := makeOptionArg step
      match step with
      | some _ => Operation.makeD Op.SLICE [a0, a1, a2]
      | Option.none => Operation.makeD Op.SLICE [a0, a1]
  | .iterable typeName xs => Call.make (.ident typeName) (makeExpressionList xs)
  | .other v =>
      match v.pyName with
      | some n => if n = "" then .lit v else .ident n
      | Option.none => .lit v

/-- Helper of `make_expression` for slices: an unset part becomes
`Epsilon`, a set part is converted. -/
def makeOptionArg : Option PyValue → Expression
  | Option.none => .epsilon
  | some v => makeExpression v

/-- Elementwise conversion of a list of raw values, as performed by
`CollectionLiteral.__init__`. -/
def makeExpressionList : List PyValue → List Expression
  | [] => []
  | x :: xs => makeExpression x :: makeExpressionList xs

/-- `DictLiteral.__init__`: each key-value pair becomes a `DictEntry`. -/
def makeDictEntries : List (PyValue × PyValue) → List Expression
  | [] => []
  | (k, v) :: xs => .dictEntry (makeExpression k) (makeExpression v) :: makeDictEntries xs

end

/-- The formatting configuration (`FormattingConfig` in `_text.py`):
maximum line width, indent width, single-line flag. -/
structure FormattingConfig where
  max_width : Nat
  indent_width : Nat
  single_line : Bool
deriving DecidableEq, Repr

/-- An indented line of text (`IndentedLine` in `_text.py`). -/
structure IndentedLine where
  indent : Nat
  text : String
deriving DecidableEq, Repr

/-- The padding mode of an infix token (`PADDING_NONE` / `PADDING_RIGHT` /
`PADDING_BOTH` in `InfixForm`). -/
inductive InfixPadding where
  | none
  | right
  | both
deriving DecidableEq, Repr

/-- `InfixForm.__PADDING_SPACES`: the number of spaces the padding mode adds
around one occurrence of the infix token. -/
def PADDING_SPACES : InfixPadding → Nat
  | .none => 0
  | .right => 1
  | .both => 2

/-- A textual form (`TextualForm` and its subclasses in `_text.py`):
`emptyForm` = `EmptyForm`, `atomicForm` = `AtomicForm`, `bracketedForm` =
`BracketedForm` (the flag is its `single_line` attribute: when false the
brackets are invisible in single-line output and contribute no length),
`preForm` = `PrefixForm`, `infForm` = `InfixForm`. -/
inductive TextualForm where
  | emptyForm
  | atomicForm (text : String)
  | bracketedForm (brackets : BracketPair) (subform : TextualForm) (single_line : Bool)
  | preForm (pre : TextualForm) (separator : String) (body : TextualForm)
  | infForm (infixText : String) (padding : InfixPadding) (subforms : List TextualForm)
deriving Repr

mutual

/-- `len(form)`: the length of the single-line rendering, as precomputed by
the `__init__` methods of the form classes (`BracketedForm.__init__`,
`PrefixForm.__init__`, `InfixForm.__init__`). -/
def formLen : TextualForm → Nat
  | .emptyForm => 0
  | .atomicForm t => t.length
  | .bracketedForm br sub sl =>
      (if sl then br.opening.length + br.closing.length else 0) + formLen sub
  | .preForm p sep b => formLen p + sep.length + formLen b
  | .infForm i pad fs =>
      formLenSum fs + (fs.length - 1) * (i.length + PADDING_SPACES pad)

/-- Sum of the lengths of a list of subforms. -/
def formLenSum : List TextualForm → Nat
  | [] => 0
  | f :: fs => formLen f + formLenSum fs

end

/-- Python's `str.join`: interleave a separator between list elements. -/
def joinStr (sep : String) : List String → String
  | [] => ""
  | [s] => s
  | s :: rest => s ++ sep ++ joinStr sep rest

mutual

/-- `to_single_line` of the form classes: plain concatenation of texts,
separators, padded infix tokens and (visible) brackets.  The infix
separator is padded only when the infix token is non-empty
(`if self.infix:` in `InfixForm.to_single_line`). -/
def toSingleLine : TextualForm → String
  | .emptyForm => ""
  | .atomicForm t => t
  | .bracketedForm br sub sl =>
      if sl then br.opening ++ toSingleLine sub ++ br.closing else toSingleLine sub
  | .preForm p sep b => toSingleLine p ++ sep ++ toSingleLine b
  | .infForm i pad fs =>
      let sep :=
        if i = "" then ""
        else
          match pad with
          | .none => i
          | .right => i ++ " "
          | .both => " " ++ i ++ " "
      joinStr sep (toSingleLineList fs)

/-- The single-line renderings of a list of subforms. -/
def toSingleLineList : List TextualForm → List String
  | [] => []
  | f :: fs => toSingleLine f :: toSingleLineList fs

end

/-- `TextualForm.encapsulate`: wrap the form in round brackets when the
condition holds; the second flag is passed through to `BracketedForm` as
its `single_line` attribute. -/
def TextualForm.encapsulate (f : TextualForm) (condition : Bool)
    (single_line : Bool) : TextualForm :=
  if condition then .bracketedForm BRACKETS_ROUND f single_line else f

/-- `isinstance(subform, InfixForm)`, used by `InfixForm.__init__` for
right-padded forms. -/
def TextualForm.isInfixForm : TextualForm → Bool
  | .infForm _ _ _ => true
  | _ => false

/-- `needs_multi_line_encapsulation`: false for the base class, true for
infix forms, and propagated through prefix forms. -/
def needsMultiLineEncapsulation : TextualForm → Bool
  | .preForm p _ b => needsMultiLineEncapsulation p || needsMultiLineEncapsulation b
  | .infForm _ _ _ => true
  | _ => false

/-- `InfixForm.__init__`: with right padding, every subform that is itself
an `InfixForm` is encapsulated in brackets that are invisible in
single-line output. -/
def InfixForm.make (infixText : String) (padding : InfixPadding)
    (subforms : List TextualForm) : TextualForm :=
  let subforms :=
    if padding = InfixPadding.right then
      subforms.map (fun f => f.encapsulate f.isInfixForm false)
    else subforms
  .infForm infixText padding subforms

/-- First character of the separator is alphabetic
(`separator[:1].isalpha()`; false for the empty string). -/
def strHeadAlpha (s : String) : Bool :=
  match s.data with
  | [] => false
  | c :: _ => c.isAlpha

/-- Last character of the separator is alphabetic
(`separator[-1:].isalpha()`; false for the empty string). -/
def strLastAlpha (s : String) : Bool :=
  match s.data.getLast? with
  | Option.none => false
  | some c => c.isAlpha

/-- The separator adjustment and assembly at the end of
`PrefixForm.from_prefix_expression`: a space is inserted before an
alphabetic separator after a non-empty prefix, and after an alphabetic
separator before a non-empty body. -/
def fromPrefixParts (prefix_form : TextualForm) (separator : String)
    (body_form : TextualForm) : TextualForm :=
  let separator :=
    if formLen prefix_form ≠ 0 && strHeadAlpha separator then " " ++ separator
    else separator
  let separator :=
    if formLen body_form ≠ 0 && strLastAlpha separator then separator ++ " "
    else separator
  .preForm prefix_form separator body_form

/-- The padding mode chosen by `InfixForm.from_infix_expression`:
right for COMMA and COLON, none for DOT, SLICE and NONE, both otherwise.
The source tests membership with operator equality (symbol and kind). -/
def infixPaddingOf (o : Operator) : InfixPadding :=
  if o = Op.COMMA || o = Op.COLON then InfixPadding.right
  else if o = Op.DOT || o = Op.SLICE || o = Op.NONE then InfixPadding.none
  else InfixPadding.both

mutual

/-- `TextualForm.from_expression` of `_text.py`: dispatch on the expression
category.  `EPSILON` yields the empty form, atomic expressions an atomic
form, bracketed expressions a bracketed form over the converted
subexpression, infix expressions go through `from_infix_expression`,
prefix expressions through `from_prefix_expression` (inlined here per
concrete class: each class supplies its `prefix_`, `separator_`, `body_`
and `precedence_`; for `UnaryOperation` and `Lambda` the prefix is the
epsilon expression, whose form is the empty form and whose
`MAX_PRECEDENCE` is never below the parent's precedence, so it is never
encapsulated), and an alias is replaced by the expression it wraps. -/
def fromExpression : Expression → TextualForm
  | .epsilon => .emptyForm
  | .lit v => .atomicForm v.pyRepr
  | .ident n => .atomicForm n
  | .collection _ br sub _ => .bracketedForm br (fromExpression sub) true
  | .operation o ops =>
      match ops with
      | [sub] => fromExpression sub
      | subs =>
          InfixForm.make o.symbol (infixPaddingOf o)
            (fromInfixSubforms o.precedence subs true)
  | .unaryOp o x =>
      let prefix_form :=
        TextualForm.emptyForm.encapsulate
          (decide (Expression.epsilon.precedence_ < o.precedence)) true
      let body_form :=
        (fromExpression x).encapsulate (decide (x.precedence_ < o.precedence)) true
      fromPrefixParts prefix_form o.symbol body_form
  | .keywordArg n v =>
      let prefix_form :=
        (TextualForm.atomicForm n).encapsulate
          (decide ((Expression.ident n).precedence_ < Op.EQ.precedence)) true
      let body_form :=
        (fromExpression v).encapsulate (decide (v.precedence_ < Op.EQ.precedence)) true
      fromPrefixParts prefix_form "=" body_form
  | .dictEntry k v =>
      let prefix_form :=
        (fromExpression k).encapsulate (decide (k.precedence_ < Op.COLON.precedence)) true
      let body_form :=
        (fromExpression v).encapsulate (decide (v.precedence_ < Op.COLON.precedence)) true
      fromPrefixParts prefix_form ": " body_form
  | .call callee args =>
      let prefix_form :=
        (fromExpression callee).encapsulate
          (decide (callee.precedence_ < Op.DOT.precedence)) true
      let body_form :=
        (fromExpression args).encapsulate
          (decide (args.precedence_ < Op.DOT.precedence)) true
      fromPrefixParts prefix_form "" body_form
  | .index coll args =>
      let prefix_form :=
        (fromExpression coll).encapsulate
          (decide (coll.precedence_ < Op.DOT.precedence)) true
      let body_form :=
        (fromExpression args).encapsulate
          (decide (args.precedence_ < Op.DOT.precedence)) true
      fromPrefixParts prefix_form "" body_form
  | .lambdaDef params body =>
      let prefix_form :=
        (fromExpression params).encapsulate
          (decide (params.precedence_ < Op.LAMBDA.precedence)) true
      let body_form :=
        (fromExpression body).encapsulate
          (decide (body.precedence_ < Op.LAMBDA.precedence)) true
      fromPrefixParts prefix_form ": " body_form
  | .lambdaE body =>
      let prefix_form :=
        TextualForm.emptyForm.encapsulate
          (decide (Expression.epsilon.precedence_ < Op.LAMBDA.precedence)) true
      let body_form :=
        (fromExpression body).encapsulate
          (decide (body.precedence_ < Op.LAMBDA.precedence)) true
      fromPrefixParts prefix_form "lambda " body_form
  | .aliasE e => fromExpression e

/-- The per-position encapsulation of `from_infix_expression`
(`pos == 0` versus later positions). -/
def fromInfixSubforms (parentPrecedence : Nat) :
    List Expression → Bool → List TextualForm
  | [], _ => []
  | e :: rest, isFirst =>
      (fromExpression e).encapsulate
        (decide (if isFirst then e.precedence_ < parentPrecedence
                 else e.precedence_ ≤ parentPrecedence)) true
        :: fromInfixSubforms parentPrecedence rest false

end

/-- `InfixForm.from_infix_expression` as a standalone function: a single
subexpression is converted directly; otherwise each subexpression is
encapsulated when its precedence is below the operation's (strictly below
for the first operand, below or equal for the others), and the subforms are
joined under the operator's padding mode.  This is the body of the
`.operation` branch of `fromExpression`. -/
def fromInfixExpression (operator : Operator) (subexpressions : List Expression) :
    TextualForm :=
  match subexpressions with
  | [sub] => fromExpression sub
  | subs =>
      InfixForm.make operator.symbol (infixPaddingOf operator)
        (fromInfixSubforms operator.precedence subs true)

/-- Length of the last line of a list of lines, or 0 if there is none
(`len(prefix_lines[-1]) if prefix_lines else 0`). -/
def lastLineLen (lines : List IndentedLine) : Nat :=
  match lines.getLast? with
  | Option.none => 0
  | some l => l.text.length

/-- Append text to the last line of a list of lines
(`lines[-1] += infix`).  Python raises `IndexError` on an empty list; the
embedding leaves an empty list unchanged (the source never reaches that
case with an empty list for the inputs considered by the claims). -/
def appendLast (lines : List IndentedLine) (s : String) : List IndentedLine :=
  match lines.getLast? with
  | Option.none => []
  | some l => lines.dropLast ++ [⟨l.indent, l.text ++ s⟩]

/-- Prepend text to the first line of a list of lines
(`lines[0] = infix + lines[0]`); an empty list is left unchanged (Python
would raise `IndexError`). -/
def prependFirst (lines : List IndentedLine) (s : String) : List IndentedLine :=
  match lines with
  | [] => []
  | l :: rest => ⟨l.indent, s ++ l.text⟩ :: rest

/-- Merge of the prefix's last line with the separator and the body's first
line in `PrefixForm.to_multiple_lines`
(`subform_lines[0] = prefix_lines[-1] + separator + subform_lines[0].text`);
with an empty body line list (where Python would raise `IndexError`) the
prefix line and separator are kept. -/
def mergeFirst (lastLine : IndentedLine) (sep : String) :
    List IndentedLine → List IndentedLine
  | [] => [⟨lastLine.indent, lastLine.text ++ sep⟩]
  | l :: rest => ⟨lastLine.indent, lastLine.text ++ sep ++ l.text⟩ :: rest

mutual

/-- `to_lines` of the form classes: the empty form yields no lines, an
atomic form one line, and each composite form (`ComplexForm.to_lines`)
checks `leading_characters + len(self) + indent * indent_width +
trailing_characters > max_width`; over budget it lays itself out over
multiple lines (the bodies of the respective `to_multiple_lines` methods,
inlined here), otherwise it emits its single-line text as one indented
line. -/
def toLines (cfg : FormattingConfig) (f : TextualForm)
    (indent leading_characters trailing_characters : Nat) : List IndentedLine :=
  match f with
  | .emptyForm => []
  | .atomicForm t => [⟨indent, t⟩]
  | .bracketedForm br sub sl =>
      if leading_characters + formLen (.bracketedForm br sub sl)
          + indent * cfg.indent_width + trailing_characters > cfg.max_width then
        ⟨indent, br.opening⟩ ::
          (toLines cfg sub (indent + 1) 0 0 ++ [⟨indent, br.closing⟩])
      else
        [⟨indent, toSingleLine (.bracketedForm br sub sl)⟩]
  | .preForm p sep b =>
      if leading_characters + formLen (.preForm p sep b)
          + indent * cfg.indent_width + trailing_characters > cfg.max_width then
        let prefix_lines := toLines cfg p indent leading_characters 0
        let subform_lines :=
          toLines cfg b indent (lastLineLen prefix_lines + sep.length)
            trailing_characters
        match prefix_lines.getLast? with
        | some lastLine => prefix_lines.dropLast ++ mergeFirst lastLine sep subform_lines
        | Option.none => prependFirst subform_lines sep
      else
        [⟨indent, toSingleLine (.preForm p sep b)⟩]
  | .infForm i pad fs =>
      if leading_characters + formLen (.infForm i pad fs)
          + indent * cfg.indent_width + trailing_characters > cfg.max_width then
        match fs with
        | [sub] => toLines cfg sub indent leading_characters trailing_characters
        | fs =>
            match pad with
            | .right =>
                infLinesRight cfg i indent leading_characters trailing_characters
                  fs true
            | _ =>
                infLinesLeft cfg (if pad = InfixPadding.both then i ++ " " else i)
                  indent leading_characters trailing_characters fs true
      else
        [⟨indent, toSingleLine (.infForm i pad fs)⟩]

/-- The right-padding loop of `InfixForm.to_multiple_lines`: every subform
except the last reserves the infix length as trailing characters and has
the infix appended to its last line; only the first uses the caller's
leading reservation, only the last the caller's trailing reservation. -/
def infLinesRight (cfg : FormattingConfig) (i : String)
    (indent leading_characters trailing_characters : Nat) :
    List TextualForm → Bool → List IndentedLine
  | [], _ => []
  | [f], isFirst =>
      toLines cfg f indent (if isFirst then leading_characters else 0)
        trailing_characters
  | f :: rest, isFirst =>
      appendLast
        (toLines cfg f indent (if isFirst then leading_characters else 0) i.length) i
        ++ infLinesRight cfg i indent leading_characters trailing_characters rest false

/-- The none/both-padding loop of `InfixForm.to_multiple_lines` (the infix
argument already carries its trailing space in both-mode): every subform
after the first reserves the infix length as leading characters and has the
infix prepended to its first line; only the first uses the caller's leading
reservation, only the last the caller's trailing reservation. -/
def infLinesLeft (cfg : FormattingConfig) (i : String)
    (indent leading_characters trailing_characters : Nat) :
    List TextualForm → Bool → List IndentedLine
  | [], _ => []
  | [f], isFirst =>
      let lines :=
        toLines cfg f indent (if isFirst then leading_characters else i.length)
          trailing_characters
      if isFirst then lines else prependFirst lines i
  | f :: rest, isFirst =>
      let lines :=
        toLines cfg f indent (if isFirst then leading_characters else i.length) 0
      (if isFirst then lines else prependFirst lines i)
        ++ infLinesLeft cfg i indent leading_characters trailing_characters rest false

end

/-- `ComplexForm` in `_text.py`: the composite forms that carry the width
check of `ComplexForm.to_lines`. -/
def TextualForm.isComplexForm : TextualForm → Bool
  | .bracketedForm _ _ _ => true
  | .preForm _ _ _ => true
  | .infForm _ _ _ => true
  | _ => false

/-- The `to_multiple_lines` methods of the composite form classes, as a
standalone function (the bodies are the same as the over-budget branches of
`toLines`); the empty and atomic forms have no such method and yield no
lines here. -/
def toMultipleLines (cfg : FormattingConfig) (f : TextualForm)
    (indent leading_characters trailing_characters : Nat) : List IndentedLine :=
  match f with
  | .bracketedForm br sub _ =>
      ⟨indent, br.opening⟩ ::
        (toLines cfg sub (indent + 1) 0 0 ++ [⟨indent, br.closing⟩])
  | .preForm p sep b =>
      let prefix_lines := toLines cfg p indent leading_characters 0
      let subform_lines :=
        toLines cfg b indent (lastLineLen prefix_lines + sep.length)
          trailing_characters
      match prefix_lines.getLast? with
      | some lastLine => prefix_lines.dropLast ++ mergeFirst lastLine sep subform_lines
      | Option.none => prependFirst subform_lines sep
  | .infForm i pad fs =>
      match fs with
      | [sub] => toLines cfg sub indent leading_characters trailing_characters
      | fs =>
          match pad with
          | .right =>
              infLinesRight cfg i indent leading_characters trailing_characters fs true
          | _ =>
              infLinesLeft cfg (if pad = InfixPadding.both then i ++ " " else i)
                indent leading_characters trailing_characters fs true
  | _ => []

/-- The indentation spacing of `TextualForm.to_text`
(`" " * (config.indent_width * indent)`). -/
def spacing (cfg : FormattingConfig) (indent : Nat) : String :=
  String.mk (List.replicate (cfg.indent_width * indent) ' ')

/-- `TextualForm.to_text`: single-line rendering when the configuration
says so, otherwise the indented lines joined with newlines. -/
def TextualForm.toText (cfg : FormattingConfig) (f : TextualForm) : String :=
  if cfg.single_line then toSingleLine f
  else
    joinStr "\n" ((toLines cfg f 0 0 0).map (fun l => spacing cfg l.indent ++ l.text))

/-- `PythonExpressionFormatter.to_text`: convert the expression to a form,
encapsulate the outermost form in multi-line-only brackets when it needs
multi-line encapsulation, and render. -/
def formatterToText (cfg : FormattingConfig) (e : Expression) : String :=
  let form := fromExpression e
  let form := form.encapsulate (needsMultiLineEncapsulation form) false
  TextualForm.toText cfg form

mutual

/-- `Expression.eq_` of `pytools/expression/_expression.py`: an alias on
either side transparently defers to the expression it wraps
(`if self_type is ExpressionAlias: return other.eq_(self.expression_)`,
symmetrically for the other side); otherwise both sides must be instances
of the same concrete class and `_eq_same_type` decides. -/
def eqE : Expression → Expression → Bool
  | .aliasE ae, b => eqE b ae
  | a, .aliasE be => eqE a be
  | a, b => sameTypeEq a b
termination_by a b => (sizeOf a + sizeOf b, 1)
decreasing_by all_goals (simp_wf; omega)

/-- The `type(self) is type(other)` check combined with the per-class
`_eq_same_type` methods:

* atomic classes compare `value_`;
* `BracketedExpression._eq_same_type` compares brackets and the derived
  subexpression (not the element list);
* `PrefixExpression._eq_same_type` compares `prefix_` and `body_` only
  (for `UnaryOperation` both prefixes are `Epsilon`, so the operator is
  not compared);
* `InfixExpression._eq_same_type` compares the infix operator and the
  subexpressions pairwise via `zip`, which silently stops at the shorter
  operand list (`all(a.eq_(b) for a, b in zip(...))`). -/
def sameTypeEq : Expression → Expression → Bool
  | .lit v, .lit w => v = w
  | .ident n, .ident m => n = m
  | .epsilon, .epsilon => true
  | .collection k br s _, .collection k2 br2 s2 _ =>
      k = k2 && (br = br2 && eqE s s2)
  | .unaryOp _ x, .unaryOp _ y =>
      -- the prefix_ comparison is omitted: both prefixes are the Epsilon
      -- singleton, which always compares equal; in particular the operator
      -- of a UnaryOperation does not enter the comparison
      eqE x y
  | .keywordArg n v, .keywordArg m w =>
      -- the prefix_ comparison of Id(n) and Id(m) is name equality
      decide (n = m) && eqE v w
  | .dictEntry k v, .dictEntry k2 v2 => eqE k k2 && eqE v v2
  | .call p b, .call p2 b2 => eqE p p2 && eqE b b2
  | .index p b, .index p2 b2 => eqE p p2 && eqE b b2
  | .lambdaDef p b, .lambdaDef p2 b2 => eqE p p2 && eqE b b2
  | .lambdaE b, .lambdaE b2 =>
      -- the prefix_ comparison is omitted: both prefixes are Epsilon
      eqE b b2
  | .operation o ops, .operation o2 ops2 => o = o2 && eqList ops ops2
  | _, _ => false
termination_by a b => (sizeOf a + sizeOf b, 0)
decreasing_by all_goals (simp_wf; omega)

/-- Python's `zip`-based pairwise comparison: the iteration stops as soon
as either list is exhausted, so surplus elements of the longer list are
ignored. -/
def eqList : List Expression → List Expression → Bool
  | x :: xs, y :: ys => eqE x y && eqList xs ys
  | _, _ => true
termination_by xs ys => (sizeOf xs + sizeOf ys, 2)
decreasing_by all_goals (simp_wf; omega)

end

/-- The fingerprint of a value inside a hash tuple. -/
def Value.fingerprint : Value → String
  | .none => "N"
  | .bool b => "B" ++ toString b
  | .int n => "I" ++ toString n
  | .str s => "S" ++ s
  | .obj oid n =>
      "O" ++ toString oid ++
        (match n with
         | Option.none => ""
         | some s => "/" ++ s)

/-- The fingerprint of an operator inside a hash tuple (Python hashes
operators by type and symbol). -/
def Operator.fingerprint (o : Operator) : String :=
  (match o.kind with
   | OperatorKind.unary => "UnaryOperator"
   | OperatorKind.binary => "BinaryOperator") ++ "(" ++ o.symbol ++ ")"

/-- A tagged tuple fingerprint, standing for Python's `hash((tag, ...))`:
equal tuples have equal fingerprints, so distinct fingerprints certify
distinct hash inputs. -/
def hashTuple (tag : String) (items : List String) : String :=
  tag ++ "(" ++ joinStr "," items ++ ")"

/-- The hash fingerprint of the `Epsilon` expression
(`hash((type(self), self.value_))` with value `None`). -/
def hashOfEpsilon : String := hashTuple "Epsilon" ["N"]

mutual

/-- The `hash_` methods of `pytools/expression/_expression.py`, modelled as
an injective-by-construction fingerprint of the tuple each method passes to
Python's `hash`:

* `AtomicExpression.hash_` = `hash((type(self), self.value_))`;
* `BracketedExpression.hash_` =
  `hash((type(self), self.brackets_, self.subexpression_.hash_()))`;
* `PrefixExpression.hash_` =
  `hash((type(self), self.prefix_.hash_(), self.separator_,
  self.body_.hash_()))` — note the separator of a `UnaryOperation` is its
  operator's symbol, and the prefix of `UnaryOperation` and `Lambda` is
  `Epsilon`;
* `InfixExpression.hash_` = `hash((type(self), self.infix_,
  *(s.hash_() for s in self.subexpressions_)))`;
* `ExpressionAlias.hash_` = the hash of the wrapped expression. -/
def hashE : Expression → String
  | .lit v => hashTuple "Lit" [v.fingerprint]
  | .ident n => hashTuple "Id" ["S" ++ n]
  | .epsilon => hashOfEpsilon
  | .collection k br s _ =>
      hashTuple
        (match k with
         | .list => "ListLiteral"
         | .tuple => "TupleLiteral"
         | .set => "SetLiteral"
         | .dict => "DictLiteral"
         | .invocation => "Invocation")
        [br.opening, br.closing, hashE s]
  | .unaryOp o x => hashTuple "UnaryOperation" [hashOfEpsilon, o.symbol, hashE x]
  | .keywordArg n v =>
      hashTuple "KeywordArgument" [hashTuple "Id" ["S" ++ n], "=", hashE v]
  | .dictEntry k v => hashTuple "DictEntry" [hashE k, ": ", hashE v]
  | .call p b => hashTuple "Call" [hashE p, "", hashE b]
  | .index p b => hashTuple "Index" [hashE p, "", hashE b]
  | .lambdaDef p b => hashTuple "LambdaDefinition" [hashE p, ": ", hashE b]
  | .lambdaE b => hashTuple "Lambda" [hashOfEpsilon, "lambda ", hashE b]
  | .operation o ops => hashTuple "Operation" (o.fingerprint :: hashList ops)
  | .aliasE e => hashE e

/-- Hashes of a list of subexpressions. -/
def hashList : List Expression → List String
  | [] => []
  | x :: xs => hashE x :: hashList xs

end

/-- The string contains no newline character. -/
def noNL (s : String) : Bool :=
  s.data.all (fun c => c != '\n')

mutual

/-- Newline-freedom of the variable texts of an expression: literal reprs,
identifier names (`Id` accepts any string), keyword-argument names, bracket
characters and operator symbols.  All other rendered characters are fixed
separators of the source. -/
def exprNoNL : Expression → Bool
  | .lit v => noNL v.pyRepr
  | .ident n => noNL n
  | .epsilon => true
  | .collection _ br s _ => noNL br.opening && (noNL br.closing && exprNoNL s)
  | .unaryOp o x => noNL o.symbol && exprNoNL x
  | .keywordArg n v => noNL n && exprNoNL v
  | .dictEntry k v => exprNoNL k && exprNoNL v
  | .call p b => exprNoNL p && exprNoNL b
  | .index p b => exprNoNL p && exprNoNL b
  | .lambdaDef p b => exprNoNL p && exprNoNL b
  | .lambdaE b => exprNoNL b
  | .operation o ops => noNL o.symbol && exprNoNLList ops
  | .aliasE e => exprNoNL e

/-- Newline-freedom of a list of subexpressions. -/
def exprNoNLList : List Expression → Bool
  | [] => true
  | x :: xs => exprNoNL x && exprNoNLList xs

end

mutual

/-- Newline-freedom of the texts stored in a textual form. -/
def formNoNL : TextualForm → Bool
  | .emptyForm => true
  | .atomicForm t => noNL t
  | .bracketedForm br sub _ => noNL br.opening && (noNL br.closing && formNoNL sub)
  | .preForm p sep b => formNoNL p && (noNL sep && formNoNL b)
  | .infForm i _ fs => noNL i && formNoNLList fs

/-- Newline-freedom of a list of subforms. -/
def formNoNLList : List TextualForm → Bool
  | [] => true
  | f :: fs => formNoNL f && formNoNLList fs

end

mutual

/-- The construction invariant of expressions that the claims rely on:
every `operation` node carries a binary operator, as enforced by
`Operation.__init__` (`TypeError` otherwise); raw nodes violating it are
not constructible through the API. -/
def exprWF : Expression → Bool
  | .lit _ => true
  | .ident _ => true
  | .epsilon => true
  | .collection _ _ s _ => exprWF s
  | .unaryOp _ x => exprWF x
  | .keywordArg _ v => exprWF v
  | .dictEntry k v => exprWF k && exprWF v
  | .call p b => exprWF p && exprWF b
  | .index p b => exprWF p && exprWF b
  | .lambdaDef p b => exprWF p && exprWF b
  | .lambdaE b => exprWF b
  | .operation o ops => decide (o.kind = OperatorKind.binary) && exprWFList ops
  | .aliasE e => exprWF e

/-- Well-formedness of a list of subexpressions. -/
def exprWFList : List Expression → Bool
  | [] => true
  | x :: xs => exprWF x && exprWFList xs

end

mutual

/-- The form invariant behind the length bookkeeping: an infix form with an
empty infix token has padding mode `none` (`InfixForm.to_single_line` skips
the padding for an empty token, while `InfixForm.__init__` counts the
padding spaces unconditionally; `from_infix_expression` only ever pairs an
empty token with the `none` padding of the NONE operator). -/
def formWF : TextualForm → Bool
  | .emptyForm => true
  | .atomicForm _ => true
  | .bracketedForm _ sub _ => formWF sub
  | .preForm p _ b => formWF p && formWF b
  | .infForm i pad fs =>
      decide (i = "" → pad = InfixPadding.none) && formWFList fs

/-- Well-formedness of a list of subforms. -/
def formWFList : List TextualForm → Bool
  | [] => true
  | f :: fs => formWF f && formWFList fs

end

/-- The continuation layout described by the claim for none/both padding:
every subform after the first reserves the infix length as leading
characters, has the infix token prepended to its first emitted line, and
only the last subform uses the caller's trailing reservation.  This
definition transcribes the claim and is compared against the source-derived
`toMultipleLines`. -/
def contLinesSpec (cfg : FormattingConfig) (i : String)
    (indent trailing_characters : Nat) : List TextualForm → List IndentedLine
  | [] => []
  | [f] => prependFirst (toLines cfg f indent i.length trailing_characters) i
  | f :: rest =>
      prependFirst (toLines cfg f indent i.length 0) i
        ++ contLinesSpec cfg i indent trailing_characters rest

/-! Helper lemmas. -/

/-- The `.operation` branch of `fromExpression` is exactly
`fromInfixExpression`. -/
theorem fromExpression_operation (o : Operator) (ops : List Expression) :
    fromExpression (.operation o ops) = fromInfixExpression o ops := by
  rcases ops with _ | ⟨e1, _ | ⟨e2, rest⟩⟩ <;> rfl


/-- Every operator's precedence is at most 18; in particular it is below
the `MAX_PRECEDENCE` of atomic and bracketed expressions, which are
therefore never parenthesized. -/
theorem Operator.precedence_le (o : Operator) : o.precedence ≤ 18 := by
  rcases h : OPERATOR_PRECEDENCE o with _ | i
  · simp [Operator.precedence, h]
  · simp only [Operator.precedence, h]
    omega

/-- A binary operator whose symbol is empty is the NONE operator, whose
padding mode is `none`. -/
theorem infixPaddingOf_empty (o : Operator) (hk : o.kind = OperatorKind.binary)
    (hs : o.symbol = "") : infixPaddingOf o = InfixPadding.none := by
  obtain ⟨s, k⟩ := o
  simp only at hs hk
  subst hs; subst hk
  decide

/-- An operator with padding mode `both` (in particular any arithmetic
operator) has a non-empty symbol. -/
theorem symbol_ne_of_both (o : Operator) (hk : o.kind = OperatorKind.binary)
    (hp : infixPaddingOf o = InfixPadding.both) : o.symbol ≠ "" := by
  intro hs
  rw [infixPaddingOf_empty o hk hs] at hp
  exact InfixPadding.noConfusion hp

/-- Length of a joined string: sum of the element lengths plus one
separator per gap. -/
theorem joinStr_length (sep : String) :
    ∀ l : List String,
      (joinStr sep l).length = (l.map String.length).sum + (l.length - 1) * sep.length := by
  intro l
  induction l with
  | nil => simp [joinStr]
  | cons s rest ih =>
    cases rest with
    | nil => simp [joinStr]
    | cons t ts =>
      show (s ++ sep ++ joinStr sep (t :: ts)).length = _
      rw [String.length_append, String.length_append, ih]
      simp only [List.map_cons, List.sum_cons, List.length_cons, Nat.add_sub_cancel]
      rw [Nat.succ_mul]
      omega

/-- Encapsulation does not change well-formedness of a form. -/
theorem formWF_encapsulate (f : TextualForm) (c sl : Bool) :
    formWF (f.encapsulate c sl) = formWF f := by
  cases c <;> simp [TextualForm.encapsulate, formWF]

/-- Well-formedness of a mapped encapsulation list. -/
theorem formWFList_map_encapsulate (fs : List TextualForm)
    (c : TextualForm → Bool) (sl : Bool) :
    formWFList (fs.map (fun f => f.encapsulate (c f) sl)) = formWFList fs := by
  induction fs with
  | nil => rfl
  | cons f rest ih => simp [formWFList, formWF_encapsulate, ih]

/-! C5 — associative flattening of the first operand. -/

/-- C5: constructing an Operation whose first operand is an Operation with
an equal operator yields a single flat node whose operand list is the first
operand's operands followed by the remaining operands, while a first
operand that is not a same-operator Operation leaves the operand list
unchanged, so equal-operator Operations in later positions remain nested
operands. -/
theorem claim5_flattening :
    ∀ (o : Operator) (ops1 rest : List Expression),
      o.kind = OperatorKind.binary → rest ≠ [] →
      (Operation.make o (.operation o ops1 :: rest) =
        .ok (.operation o (ops1 ++ rest))) ∧
      (∀ first : Expression, (∀ ops', first ≠ .operation o ops') →
        Operation.make o (first :: rest) = .ok (.operation o (first :: rest))) := by
  intro o ops1 rest hk hr
  have hlen : ∀ x : Expression, ¬ ((x :: rest).length < 2) := by
    intro x
    cases rest with
    | nil => exact absurd rfl hr
    | cons y t => simp [List.length]
  constructor
  · unfold Operation.make
    rw [if_neg (by simp [hk]), if_neg (hlen _)]
    unfold Operation.flattenOperands
    simp
  · intro first hfirst
    unfold Operation.make
    rw [if_neg (by simp [hk]), if_neg (hlen _)]
    unfold Operation.flattenOperands
    cases first
    case operation op1 ops1' =>
      have hne : ¬ (op1 = o) := fun h => hfirst ops1' (by rw [h])
      simp [hne]
    all_goals rfl

/-- Witness for C5: flattening `Infix(+, Infix(+, x, y), z)` into
`Infix(+, x, y, z)`, and non-flattening of a same-operator Operation in the
second position. -/
theorem claim5_witness :
    Operation.make Op.ADD [.operation Op.ADD [.ident "x", .ident "y"], .ident "z"] =
      .ok (.operation Op.ADD [.ident "x", .ident "y", .ident "z"]) ∧
    Operation.make Op.ADD [.ident "x", .operation Op.ADD [.ident "y", .ident "z"]] =
      .ok (.operation Op.ADD [.ident "x", .operation Op.ADD [.ident "y", .ident "z"]]) :=
  ⟨(claim5_flattening Op.ADD [.ident "x", .ident "y"] [.ident "z"] rfl
      (by simp)).1,
   (claim5_flattening Op.ADD [] [.operation Op.ADD [.ident "y", .ident "z"]] rfl
      (by simp)).2 (.ident "x") (fun _ h => Expression.noConfusion h)⟩

/-! C9 — arity error at construction time. -/

/-- C9: for every binary operator and every operand tuple with fewer than
two operands, `Operation.__init__` fails with the arity `ValueError` at
construction time and no expression node is produced (the constructor
returns the error instead of a node, so layout never sees such a node). -/
theorem claim9_arity_error :
    ∀ (o : Operator) (operands : List Expression),
      o.kind = OperatorKind.binary → operands.length < 2 →
      Operation.make o operands =
        .error (.valueError "operation requires at least two operands") := by
  intro o ops hk hlen
  unfold Operation.make
  rw [if_neg (by simp [hk]), if_pos hlen]

/-- Witness for C9: a one-operand ADD operation fails with the arity
error. -/
theorem claim9_witness :
    Operation.make Op.ADD [.ident "x"] =
      .error (.valueError "operation requires at least two operands") :=
  claim9_arity_error Op.ADD [.ident "x"] rfl (by simp)

/-! C6 — collection literals. -/

/-- C6: a collection literal built from zero elements has the empty
expression as its subexpression, from one element that element itself, and
from two or more elements the COMMA operation built from all elements; and
the list literal renders as `[]`, `[x]` (no trailing comma) and `[x, y]`
respectively. -/
theorem claim6_collection_literal :
    (∀ (k : CollectionKind) (br : BracketPair),
      (CollectionLiteral.make k br []).subexpressionOf = .epsilon) ∧
    (∀ (k : CollectionKind) (br : BracketPair) (e : Expression),
      (CollectionLiteral.make k br [e]).subexpressionOf = e) ∧
    (∀ (k : CollectionKind) (br : BracketPair) (e1 e2 : Expression)
      (es : List Expression),
      Except.ok ((CollectionLiteral.make k br (e1 :: e2 :: es)).subexpressionOf) =
        Operation.make Op.COMMA (e1 :: e2 :: es)) ∧
    formatterToText ⟨80, 4, true⟩ (ListLiteral.make []) = "[]" ∧
    formatterToText ⟨80, 4, true⟩ (ListLiteral.make [.ident "x"]) = "[x]" ∧
    formatterToText ⟨80, 4, true⟩ (ListLiteral.make [.ident "x", .ident "y"]) =
      "[x, y]" := by
  refine ⟨fun k br => rfl, fun k br e => rfl, ?_, rfl, rfl, rfl⟩
  intro k br e1 e2 es
  have hok : Operation.make Op.COMMA (e1 :: e2 :: es) =
      .ok (.operation Op.COMMA
        (Operation.flattenOperands Op.COMMA (e1 :: e2 :: es))) := by
    unfold Operation.make
    rw [if_neg (by decide), if_neg (by simp [List.length])]
  rw [hok]
  unfold CollectionLiteral.make Operation.makeD
  rw [hok]
  rfl

/-! C8 — the fallback branch of make_expression. -/

/-- C8 counterexample: a non-iterable object exposing a non-empty
`__name__` is converted to an `Id` named after it, not to a `Lit` wrapping
the value, contradicting the claim that every fallback value becomes a
Literal. -/
theorem claim8_counterexample :
    makeExpression (.other (.obj 0 (some "f"))) = .ident "f" ∧
    makeExpression (.other (.obj 0 (some "f"))) ≠ .lit (.obj 0 (some "f")) := by
  refine ⟨rfl, ?_⟩
  intro h
  rw [show makeExpression (.other (.obj 0 (some "f"))) = .ident "f" from rfl] at h
  exact Expression.noConfusion h

/-- C8 (amended): for every fallback value (neither expression-like, nor
string, container, slice or iterable), `make_expression` returns a `Lit`
wrapping exactly that value unless the value exposes a non-empty `__name__`
attribute, in which case it returns an `Id` carrying that name. -/
theorem claim8_fallback :
    ∀ v : Value,
      (v.pyName = Option.none → makeExpression (.other v) = .lit v) ∧
      (v.pyName = some "" → makeExpression (.other v) = .lit v) ∧
      (∀ n, v.pyName = some n → n ≠ "" → makeExpression (.other v) = .ident n) := by
  intro v
  refine ⟨?_, ?_, ?_⟩
  · intro h; simp [makeExpression, h]
  · intro h; simp [makeExpression, h]
  · intro n h hn; simp [makeExpression, h, hn]

/-- Witness for C8: a plain number becomes a Literal, an object with
`__name__` becomes an Identifier. -/
theorem claim8_witness :
    makeExpression (.other (.int 5)) = .lit (.int 5) ∧
    makeExpression (.other (.obj 3 (some "g"))) = .ident "g" :=
  ⟨(claim8_fallback (.int 5)).1 rfl,
   (claim8_fallback (.obj 3 (some "g"))).2.2 "g" rfl (by decide)⟩

/-! C10 — eq_ / hash_ consistency. -/

/-- C10: the claim that `eq_` implies equal `hash_` is violated by the
code: `InfixExpression._eq_same_type` compares operands via `zip`, which
stops at the shorter operand list, so `Operation(+, 1, 2)` compares equal
to `Operation(+, 1, 2, 3)`, while `hash_` incorporates every operand, so
the two hash inputs differ. -/
theorem claim10_eq_hash_bug :
    eqE (.operation Op.ADD [.lit (.int 1), .lit (.int 2)])
        (.operation Op.ADD [.lit (.int 1), .lit (.int 2), .lit (.int 3)]) = true ∧
    hashE (.operation Op.ADD [.lit (.int 1), .lit (.int 2)]) ≠
      hashE (.operation Op.ADD [.lit (.int 1), .lit (.int 2), .lit (.int 3)]) := by
  constructor
  · simp [eqE, sameTypeEq, eqList]
  · decide

/-! C1 — parenthesization by precedence. -/

/-- C1 counterexample: DIV and MUL share a precedence tier, yet a
first-operand DIV under MUL is rendered without parentheses — the claim
that a child is parenthesized exactly when its precedence is looser than or
tied with its parent's fails for tied first operands. -/
theorem claim1_counterexample :
    Op.DIV.precedence = Op.MUL.precedence ∧
    formatterToText ⟨80, 4, true⟩
      (.operation Op.MUL [.operation Op.DIV [.ident "a", .ident "b"], .ident "c"]) =
      "a / b * c" := ⟨rfl, rfl⟩

/-! C4 — multi-line infix layout. -/

/-- C4 counterexample: the three-operand ADD with one-character operands at
`max_width = 5` renders as five lines (four newline separators), not
three: the formatter first encapsulates the root infix form in multi-line
brackets, so the opening and closing parentheses occupy their own lines
around the three operand lines. -/
theorem claim4_counterexample :
    formatterToText ⟨5, 4, false⟩
      (.operation Op.ADD [.ident "a", .ident "b", .ident "c"]) =
      "(\n    a\n    + b\n    + c\n)" ∧
    (formatterToText ⟨5, 4, false⟩
        (.operation Op.ADD [.ident "a", .ident "b", .ident "c"])).data.count '\n'
      = 4 := ⟨rfl, by decide⟩

/-! C3 — the width check of composite forms. -/

/-- C3: every composite form's `to_lines` applies the width check
independently at its own node: it emits exactly one indented line carrying
its single-line text when `leading_characters + len(form) +
indent * indent_width + trailing_characters` is at most `max_width`, and
recurses into its multi-line layout (`to_multiple_lines`) as soon as that
sum exceeds `max_width`. -/
theorem claim3_width_dispatch :
    ∀ (cfg : FormattingConfig) (f : TextualForm) (ind lead trail : Nat),
      f.isComplexForm = true →
      toLines cfg f ind lead trail =
        if lead + formLen f + ind * cfg.indent_width + trail > cfg.max_width
        then toMultipleLines cfg f ind lead trail
        else [⟨ind, toSingleLine f⟩] := by
  intro cfg f ind lead trail hc
  cases f with
  | emptyForm => exact Bool.noConfusion hc
  | atomicForm t => exact Bool.noConfusion hc
  | bracketedForm br sub sl => rfl
  | preForm p sep b => rfl
  | infForm i pad fs =>
      unfold toLines toMultipleLines
      rfl

/-- Witness for C3: the dispatch equation at a concrete two-operand infix
form and configuration. -/
theorem claim3_witness :
    TextualForm.isComplexForm
      (.infForm "+" .both [.atomicForm "a", .atomicForm "b"]) = true ∧
    toLines ⟨80, 4, false⟩ (.infForm "+" .both [.atomicForm "a", .atomicForm "b"])
        0 0 0 =
      if 0 + formLen (.infForm "+" .both [.atomicForm "a", .atomicForm "b"])
          + 0 * 4 + 0 > 80
      then toMultipleLines ⟨80, 4, false⟩
        (.infForm "+" .both [.atomicForm "a", .atomicForm "b"]) 0 0 0
      else [⟨0, toSingleLine (.infForm "+" .both [.atomicForm "a", .atomicForm "b"])⟩] :=
  ⟨rfl, claim3_width_dispatch ⟨80, 4, false⟩
    (.infForm "+" .both [.atomicForm "a", .atomicForm "b"]) 0 0 0 rfl⟩

/-! C4 — multi-line infix layout under none/both padding. -/

/-- The continuation blocks of `infLinesLeft` after the first subform are
exactly the claim's description: every later subform reserves the infix
length as leading characters, gets the infix prepended to its first line,
and only the last keeps the caller's trailing reservation. -/
theorem infLinesLeft_false (cfg : FormattingConfig) (i : String)
    (ind lead trail : Nat) :
    ∀ rest : List TextualForm,
      infLinesLeft cfg i ind lead trail rest false =
        contLinesSpec cfg i ind trail rest := by
  intro rest
  induction rest with
  | nil => rfl
  | cons g rest ih =>
    cases rest with
    | nil => simp [infLinesLeft, contLinesSpec]
    | cons h t =>
      show (if false then _ else prependFirst _ i) ++
          infLinesLeft cfg i ind lead trail (h :: t) false = _
      rw [if_neg (by simp), ih]
      rfl

/-- C4 (amended): the multi-line layout of an infix form under padding mode
`none` or `both` renders the first subform with the caller's leading
reservation and no trailing reservation, and every following subform as a
continuation block with the infix token (carrying a trailing space in
`both` mode) prepended to its first line; only the last block keeps the
caller's trailing reservation.  The concrete three-operand ADD with
one-character operand names at `max_width = 5` renders as an opening
parenthesis line, the three operand lines indented one level deeper with
`+` leading each continuation line, and a closing parenthesis line. -/
theorem claim4_multiline_layout :
    (∀ (cfg : FormattingConfig) (i : String) (pad : InfixPadding)
        (f : TextualForm) (rest : List TextualForm) (ind lead trail : Nat),
      (pad = InfixPadding.none ∨ pad = InfixPadding.both) → rest ≠ [] →
      toMultipleLines cfg (.infForm i pad (f :: rest)) ind lead trail =
        toLines cfg f ind lead 0
          ++ contLinesSpec cfg (if pad = InfixPadding.both then i ++ " " else i)
              ind trail rest) ∧
    formatterToText ⟨5, 4, false⟩
      (.operation Op.ADD [.ident "a", .ident "b", .ident "c"]) =
      "(\n    a\n    + b\n    + c\n)" := by
  constructor
  · intro cfg i pad f rest ind lead trail hpad hr
    cases rest with
    | nil => exact absurd rfl hr
    | cons g t =>
      rcases hpad with h | h <;> subst h
      · show infLinesLeft cfg i ind lead trail (f :: g :: t) true = _
        rw [if_neg (by simp)]
        show (if true then toLines cfg f ind lead 0 else _) ++ _ = _
        rw [if_pos rfl, infLinesLeft_false]
      · show infLinesLeft cfg (i ++ " ") ind lead trail (f :: g :: t) true = _
        rw [if_pos rfl]
        show (if true then toLines cfg f ind lead 0 else _) ++ _ = _
        rw [if_pos rfl, infLinesLeft_false]
  · rfl

/-- Witness for C4: the layout equation instantiated at the concrete
three-operand form of the scenario, one indent level inside the enclosing
brackets. -/
theorem claim4_witness :
    toMultipleLines ⟨5, 4, false⟩
        (.infForm "+" .both [.atomicForm "a", .atomicForm "b", .atomicForm "c"])
        1 0 0 =
      toLines ⟨5, 4, false⟩ (.atomicForm "a") 1 0 0
        ++ contLinesSpec ⟨5, 4, false⟩ ("+" ++ " ") 1 0
            [.atomicForm "b", .atomicForm "c"] :=
  claim4_multiline_layout.1 ⟨5, 4, false⟩ "+" .both (.atomicForm "a")
    [.atomicForm "b", .atomicForm "c"] 1 0 0 (Or.inr rfl) (by simp)

/-! C2 — the length invariant. -/

theorem length_space : (" " : String).length = 1 := rfl

/-- The padded infix separator of `to_single_line` has the length counted
by `InfixForm.__init__`: infix length plus the padding spaces. -/
theorem padded_sep_length (i : String) (pad : InfixPadding) :
    (match pad with
      | InfixPadding.none => i
      | InfixPadding.right => i ++ " "
      | InfixPadding.both => " " ++ i ++ " ").length
      = i.length + PADDING_SPACES pad := by
  cases pad <;> simp [PADDING_SPACES, String.length_append, length_space]
  all_goals omega

mutual

/-- The length invariant at the form level: for every well-formed textual
form the precomputed length equals the length of its single-line
rendering. -/
theorem formWF_len (f : TextualForm) (h : formWF f = true) :
    formLen f = (toSingleLine f).length := by
  cases f with
  | emptyForm => rfl
  | atomicForm t => rfl
  | bracketedForm br sub sl =>
      have hsub : formWF sub = true := by simpa [formWF] using h
      have ih := formWF_len sub hsub
      cases sl <;> simp [formLen, toSingleLine, String.length_append, ih]
      all_goals omega
  | preForm p sep b =>
      have h2 : formWF p = true ∧ formWF b = true := by simpa [formWF] using h
      have ih1 := formWF_len p h2.1
      have ih2 := formWF_len b h2.2
      simp [formLen, toSingleLine, String.length_append, ih1, ih2]
  | infForm i pad fs =>
      have h2 : (¬ i = "" ∨ pad = InfixPadding.none) ∧ formWFList fs = true := by
        simpa [formWF] using h
      have ihl := formWF_lenList fs h2.2
      by_cases hi : i = ""
      · have hpad := h2.1.resolve_left (not_not_intro hi)
        subst hpad
        subst hi
        simp [formLen, toSingleLine, joinStr_length, ihl.1, ihl.2, PADDING_SPACES]
      · simp only [formLen, toSingleLine, if_neg hi, joinStr_length, ihl.1, ihl.2,
          padded_sep_length]

/-- The length invariant for lists of subforms: the sum of the lengths and
the number of rendered pieces. -/
theorem formWF_lenList (fs : List TextualForm) (h : formWFList fs = true) :
    formLenSum fs = ((toSingleLineList fs).map String.length).sum ∧
    (toSingleLineList fs).length = fs.length := by
  cases fs with
  | nil => exact ⟨rfl, rfl⟩
  | cons f rest =>
      have h2 : formWF f = true ∧ formWFList rest = true := by
        simpa [formWFList] using h
      have ihf := formWF_len f h2.1
      have ih := formWF_lenList rest h2.2
      constructor
      · simp [formLenSum, toSingleLineList, ihf, ih.1]
      · simp [toSingleLineList, ih.2]

end

/-- The prefix-form assembly preserves well-formedness (the separator does
not enter the invariant). -/
theorem fromPrefixParts_wf (p : TextualForm) (s : String) (b : TextualForm) :
    formWF (fromPrefixParts p s b) = (formWF p && formWF b) := by
  simp [fromPrefixParts, formWF]

/-- A form built by `InfixForm.make` from the symbol and padding of a
binary operator is well-formed when its subforms are. -/
theorem infixFormMake_wf (o : Operator) (hk : o.kind = OperatorKind.binary)
    (subs : List TextualForm) (hs : formWFList subs = true) :
    formWF (InfixForm.make o.symbol (infixPaddingOf o) subs) = true := by
  have himp : o.symbol = "" → infixPaddingOf o = InfixPadding.none :=
    infixPaddingOf_empty o hk
  have hdisj : ¬ o.symbol = "" ∨ infixPaddingOf o = InfixPadding.none :=
    (Decidable.em (o.symbol = "")).elim (fun hs2 => Or.inr (himp hs2)) Or.inl
  unfold InfixForm.make
  by_cases hp : infixPaddingOf o = InfixPadding.right
  · rw [if_pos hp]
    simp [formWF, formWFList_map_encapsulate, hs, hdisj]
  · rw [if_neg hp]
    simp [formWF, hs, hdisj]

mutual

/-- Forms produced from well-formed expressions are well-formed. -/
theorem fromExpression_wf (e : Expression) (h : exprWF e = true) :
    formWF (fromExpression e) = true := by
  cases e with
  | lit v => rfl
  | ident n => rfl
  | epsilon => rfl
  | collection k br s es =>
      have hs : exprWF s = true := by simpa [exprWF] using h
      simpa [fromExpression, formWF] using fromExpression_wf s hs
  | unaryOp o x =>
      have hx : exprWF x = true := by simpa [exprWF] using h
      simp [fromExpression, fromPrefixParts_wf, formWF_encapsulate, formWF,
        fromExpression_wf x hx]
  | keywordArg n v =>
      have hv : exprWF v = true := by simpa [exprWF] using h
      simp [fromExpression, fromPrefixParts_wf, formWF_encapsulate, formWF,
        fromExpression_wf v hv]
  | dictEntry k v =>
      have h2 : exprWF k = true ∧ exprWF v = true := by simpa [exprWF] using h
      simp [fromExpression, fromPrefixParts_wf, formWF_encapsulate,
        fromExpression_wf k h2.1, fromExpression_wf v h2.2]
  | call p b =>
      have h2 : exprWF p = true ∧ exprWF b = true := by simpa [exprWF] using h
      simp [fromExpression, fromPrefixParts_wf, formWF_encapsulate,
        fromExpression_wf p h2.1, fromExpression_wf b h2.2]
  | index p b =>
      have h2 : exprWF p = true ∧ exprWF b = true := by simpa [exprWF] using h
      simp [fromExpression, fromPrefixParts_wf, formWF_encapsulate,
        fromExpression_wf p h2.1, fromExpression_wf b h2.2]
  | lambdaDef p b =>
      have h2 : exprWF p = true ∧ exprWF b = true := by simpa [exprWF] using h
      simp [fromExpression, fromPrefixParts_wf, formWF_encapsulate,
        fromExpression_wf p h2.1, fromExpression_wf b h2.2]
  | lambdaE b =>
      have hb : exprWF b = true := by simpa [exprWF] using h
      simp [fromExpression, fromPrefixParts_wf, formWF_encapsulate, formWF,
        fromExpression_wf b hb]
  | operation o ops =>
      have h2 : o.kind = OperatorKind.binary ∧ exprWFList ops = true := by
        simpa [exprWF] using h
      rcases ops with _ | ⟨e1, rest⟩
      · exact infixFormMake_wf o h2.1 _ (fromInfixSubforms_wf o.precedence [] true rfl)
      · rcases rest with _ | ⟨e2, rest2⟩
        · have he1 : exprWF e1 = true := by simpa [exprWFList] using h2.2
          simpa [fromExpression] using fromExpression_wf e1 he1
        · exact infixFormMake_wf o h2.1 _
            (fromInfixSubforms_wf o.precedence (e1 :: e2 :: rest2) true h2.2)
  | aliasE e1 =>
      have he : exprWF e1 = true := by simpa [exprWF] using h
      simpa [fromExpression] using fromExpression_wf e1 he

/-- Subform lists produced from well-formed expression lists are
well-formed. -/
theorem fromInfixSubforms_wf (prec : Nat) (es : List Expression) (first : Bool)
    (h : exprWFList es = true) :
    formWFList (fromInfixSubforms prec es first) = true := by
  cases es with
  | nil => rfl
  | cons e rest =>
      have h2 : exprWF e = true ∧ exprWFList rest = true := by
        simpa [exprWFList] using h
      simp [fromInfixSubforms, formWFList, formWF_encapsulate,
        fromExpression_wf e h2.1, fromInfixSubforms_wf prec rest false h2.2]

end

/-- C2: for every expression (with the binary-operator invariant that
`Operation.__init__` enforces on operation nodes), the precomputed length
of the textual form produced from it equals the length of its single-line
rendering; since the statement holds for arbitrary expressions, it covers
every subform at every nesting depth. -/
theorem claim2_length_invariant :
    ∀ e : Expression, exprWF e = true →
      formLen (fromExpression e) = (toSingleLine (fromExpression e)).length :=
  fun e h => formWF_len (fromExpression e) (fromExpression_wf e h)

/-- Witness for C2: the length invariant at a concrete nested
expression. -/
theorem claim2_witness :
    exprWF (.operation Op.ADD
      [.ident "ab", .operation Op.MUL [.ident "c", .ident "d"]]) = true ∧
    formLen (fromExpression (.operation Op.ADD
      [.ident "ab", .operation Op.MUL [.ident "c", .ident "d"]])) =
      (toSingleLine (fromExpression (.operation Op.ADD
        [.ident "ab", .operation Op.MUL [.ident "c", .ident "d"]]))).length :=
  ⟨rfl, claim2_length_invariant
    (.operation Op.ADD [.ident "ab", .operation Op.MUL [.ident "c", .ident "d"]]) rfl⟩

/-! C7 — single-line rendering. -/

/-- C7 counterexample: identifiers accept arbitrary strings, so an
identifier whose name embeds a newline renders with a newline even under
`single_line = true`, contradicting the claim for every expression. -/
theorem claim7_counterexample :
    noNL (formatterToText ⟨80, 4, true⟩ (.ident "a\nb")) = false := by decide

theorem noNL_space : noNL " " = true := rfl

theorem noNL_append (a b : String) : noNL (a ++ b) = (noNL a && noNL b) := by
  simp [noNL, String.data_append, List.all_append]

/-- A join of newline-free strings with a newline-free separator is
newline-free. -/
theorem noNL_joinStr (sep : String) (hsep : noNL sep = true) :
    ∀ l : List String, (∀ s ∈ l, noNL s = true) → noNL (joinStr sep l) = true := by
  intro l
  induction l with
  | nil => intro _; rfl
  | cons s rest ih =>
    intro hl
    cases rest with
    | nil => exact hl s (by simp [joinStr])
    | cons t ts =>
      show noNL (s ++ sep ++ joinStr sep (t :: ts)) = true
      rw [noNL_append, noNL_append]
      simp [hl s (by simp), hsep, ih (fun x hx => hl x (by simp [hx]))]

/-- Encapsulation preserves newline-freedom (round brackets are
newline-free). -/
theorem formNoNL_encapsulate (f : TextualForm) (c sl : Bool) :
    formNoNL (f.encapsulate c sl) = formNoNL f := by
  cases c
  · rfl
  · show formNoNL (.bracketedForm BRACKETS_ROUND f sl) = formNoNL f
    simp [formNoNL, show noNL BRACKETS_ROUND.opening = true from rfl,
      show noNL BRACKETS_ROUND.closing = true from rfl]

/-- Newline-freedom of a mapped encapsulation list. -/
theorem formNoNLList_map_encapsulate (fs : List TextualForm)
    (c : TextualForm → Bool) (sl : Bool) :
    formNoNLList (fs.map (fun f => f.encapsulate (c f) sl)) = formNoNLList fs := by
  induction fs with
  | nil => rfl
  | cons f rest ih => simp [formNoNLList, formNoNL_encapsulate, ih]

mutual

/-- Single-line renderings of newline-free forms are newline-free. -/
theorem toSingleLine_noNL (f : TextualForm) (h : formNoNL f = true) :
    noNL (toSingleLine f) = true := by
  cases f with
  | emptyForm => rfl
  | atomicForm t => simpa [formNoNL] using h
  | bracketedForm br sub sl =>
      have h2 : noNL br.opening = true ∧ noNL br.closing = true ∧
          formNoNL sub = true := by simpa [formNoNL] using h
      have ih := toSingleLine_noNL sub h2.2.2
      cases sl <;> simp [toSingleLine, noNL_append, h2.1, h2.2.1, ih]
  | preForm p sep b =>
      have h2 : formNoNL p = true ∧ noNL sep = true ∧ formNoNL b = true := by
        simpa [formNoNL] using h
      simp [toSingleLine, noNL_append, toSingleLine_noNL p h2.1, h2.2.1,
        toSingleLine_noNL b h2.2.2]
  | infForm i pad fs =>
      have h2 : noNL i = true ∧ formNoNLList fs = true := by
        simpa [formNoNL] using h
      have hl := toSingleLineList_noNL fs h2.2
      by_cases hi : i = ""
      · subst hi
        simp only [toSingleLine, if_pos rfl]
        exact noNL_joinStr "" rfl _ hl
      · cases pad with
        | none =>
            simp only [toSingleLine, if_neg hi]
            exact noNL_joinStr i h2.1 _ hl
        | right =>
            simp only [toSingleLine, if_neg hi]
            exact noNL_joinStr (i ++ " ")
              (by rw [noNL_append]; simp [h2.1, noNL_space]) _ hl
        | both =>
            simp only [toSingleLine, if_neg hi]
            exact noNL_joinStr (" " ++ i ++ " ")
              (by rw [noNL_append, noNL_append]; simp [h2.1, noNL_space]) _ hl

/-- Single-line renderings of a newline-free subform list. -/
theorem toSingleLineList_noNL (fs : List TextualForm)
    (h : formNoNLList fs = true) :
    ∀ s ∈ toSingleLineList fs, noNL s = true := by
  cases fs with
  | nil => intro s hs; exact absurd hs (by simp [toSingleLineList])
  | cons f rest =>
      have h2 : formNoNL f = true ∧ formNoNLList rest = true := by
        simpa [formNoNLList] using h
      intro s hs
      rcases (by simpa [toSingleLineList] using hs :
        s = toSingleLine f ∨ s ∈ toSingleLineList rest) with h3 | h3
      · rw [h3]; exact toSingleLine_noNL f h2.1
      · exact toSingleLineList_noNL rest h2.2 s h3

end

/-- The prefix-form assembly preserves newline-freedom: the possible extra
spaces around an alphabetic separator are newline-free. -/
theorem fromPrefixParts_noNL (p : TextualForm) (s : String) (b : TextualForm)
    (hp : formNoNL p = true) (hs : noNL s = true) (hb : formNoNL b = true) :
    formNoNL (fromPrefixParts p s b) = true := by
  have h1 : ∀ (c : Prop) (inst : Decidable c) (t : String), noNL t = true →
      noNL (@ite _ c inst (" " ++ t) t) = true := by
    intro c inst t ht
    by_cases hc : c <;> simp [hc, noNL_append, ht, noNL_space]
  have h2 : ∀ (c : Prop) (inst : Decidable c) (t : String), noNL t = true →
      noNL (@ite _ c inst (t ++ " ") t) = true := by
    intro c inst t ht
    by_cases hc : c <;> simp [hc, noNL_append, ht, noNL_space]
  unfold fromPrefixParts
  simp only [formNoNL, Bool.and_eq_true]
  exact ⟨hp, h2 _ _ _ (h1 _ _ _ hs), hb⟩

/-- `InfixForm.make` preserves newline-freedom. -/
theorem infixFormMake_noNL (i : String) (pad : InfixPadding)
    (subs : List TextualForm) (hi : noNL i = true)
    (hs : formNoNLList subs = true) :
    formNoNL (InfixForm.make i pad subs) = true := by
  unfold InfixForm.make
  split_ifs <;> simp [formNoNL, hi, hs, formNoNLList_map_encapsulate]

mutual

/-- Forms produced from newline-free expressions are newline-free (the
fixed separators and brackets of the conversion contain no newline). -/
theorem fromExpression_noNL (e : Expression) (h : exprNoNL e = true) :
    formNoNL (fromExpression e) = true := by
  cases e with
  | lit v => simpa [fromExpression, formNoNL, exprNoNL] using h
  | ident n => simpa [fromExpression, formNoNL, exprNoNL] using h
  | epsilon => rfl
  | collection k br s es =>
      have h2 : noNL br.opening = true ∧ noNL br.closing = true ∧
          exprNoNL s = true := by simpa [exprNoNL] using h
      simp [fromExpression, formNoNL, h2.1, h2.2.1, fromExpression_noNL s h2.2.2]
  | unaryOp o x =>
      have h2 : noNL o.symbol = true ∧ exprNoNL x = true := by
        simpa [exprNoNL] using h
      exact fromPrefixParts_noNL _ _ _
        (by rw [formNoNL_encapsulate]; rfl) h2.1
        (by rw [formNoNL_encapsulate]; exact fromExpression_noNL x h2.2)
  | keywordArg n v =>
      have h2 : noNL n = true ∧ exprNoNL v = true := by simpa [exprNoNL] using h
      exact fromPrefixParts_noNL _ _ _
        (by rw [formNoNL_encapsulate]; simpa [formNoNL] using h2.1) rfl
        (by rw [formNoNL_encapsulate]; exact fromExpression_noNL v h2.2)
  | dictEntry k v =>
      have h2 : exprNoNL k = true ∧ exprNoNL v = true := by simpa [exprNoNL] using h
      exact fromPrefixParts_noNL _ _ _
        (by rw [formNoNL_encapsulate]; exact fromExpression_noNL k h2.1) rfl
        (by rw [formNoNL_encapsulate]; exact fromExpression_noNL v h2.2)
  | call p b =>
      have h2 : exprNoNL p = true ∧ exprNoNL b = true := by simpa [exprNoNL] using h
      exact fromPrefixParts_noNL _ _ _
        (by rw [formNoNL_encapsulate]; exact fromExpression_noNL p h2.1) rfl
        (by rw [formNoNL_encapsulate]; exact fromExpression_noNL b h2.2)
  | index p b =>
      have h2 : exprNoNL p = true ∧ exprNoNL b = true := by simpa [exprNoNL] using h
      exact fromPrefixParts_noNL _ _ _
        (by rw [formNoNL_encapsulate]; exact fromExpression_noNL p h2.1) rfl
        (by rw [formNoNL_encapsulate]; exact fromExpression_noNL b h2.2)
  | lambdaDef p b =>
      have h2 : exprNoNL p = true ∧ exprNoNL b = true := by simpa [exprNoNL] using h
      exact fromPrefixParts_noNL _ _ _
        (by rw [formNoNL_encapsulate]; exact fromExpression_noNL p h2.1) rfl
        (by rw [formNoNL_encapsulate]; exact fromExpression_noNL b h2.2)
  | lambdaE b =>
      have hb : exprNoNL b = true := by simpa [exprNoNL] using h
      exact fromPrefixParts_noNL _ _ _
        (by rw [formNoNL_encapsulate]; rfl) rfl
        (by rw [formNoNL_encapsulate]; exact fromExpression_noNL b hb)
  | operation o ops =>
      have h2 : noNL o.symbol = true ∧ exprNoNLList ops = true := by
        simpa [exprNoNL] using h
      rcases ops with _ | ⟨e1, rest⟩
      · exact infixFormMake_noNL _ _ _ h2.1
          (fromInfixSubforms_noNL o.precedence [] true rfl)
      · rcases rest with _ | ⟨e2, rest2⟩
        · have he1 : exprNoNL e1 = true := by simpa [exprNoNLList] using h2.2
          simpa [fromExpression] using fromExpression_noNL e1 he1
        · exact infixFormMake_noNL _ _ _ h2.1
            (fromInfixSubforms_noNL o.precedence (e1 :: e2 :: rest2) true h2.2)
  | aliasE e1 =>
      have he : exprNoNL e1 = true := by simpa [exprNoNL] using h
      simpa [fromExpression] using fromExpression_noNL e1 he

/-- Subform lists produced from newline-free expression lists are
newline-free. -/
theorem fromInfixSubforms_noNL (prec : Nat) (es : List Expression) (first : Bool)
    (h : exprNoNLList es = true) :
    formNoNLList (fromInfixSubforms prec es first) = true := by
  cases es with
  | nil => rfl
  | cons e rest =>
      have h2 : exprNoNL e = true ∧ exprNoNLList rest = true := by
        simpa [exprNoNLList] using h
      simp [fromInfixSubforms, formNoNLList, formNoNL_encapsulate,
        fromExpression_noNL e h2.1, fromInfixSubforms_noNL prec rest false h2.2]

end

/-- C7 (amended): rendering an expression whose variable texts (identifier
and keyword-argument names, operator symbols, bracket characters, literal
reprs) contain no newline under a single-line configuration yields a string
containing no newline character; and rendering is a pure function, so any
two renderings of the same expression under the same configuration are
identical. -/
theorem claim7_single_line :
    ∀ (cfg : FormattingConfig) (e : Expression),
      cfg.single_line = true → exprNoNL e = true →
      noNL (formatterToText cfg e) = true ∧
      formatterToText cfg e = formatterToText cfg e := by
  intro cfg e hc he
  refine ⟨?_, rfl⟩
  unfold formatterToText TextualForm.toText
  rw [if_pos hc]
  have h1 : formNoNL (fromExpression e) = true := fromExpression_noNL e he
  exact toSingleLine_noNL _ (by rw [formNoNL_encapsulate]; exact h1)

/-- Witness for C7: a newline-free identifier rendered under the
single-line configuration. -/
theorem claim7_witness :
    FormattingConfig.single_line ⟨80, 4, true⟩ = true ∧
    exprNoNL (.ident "ab") = true ∧
    noNL (formatterToText ⟨80, 4, true⟩ (.ident "ab")) = true ∧
    formatterToText ⟨80, 4, true⟩ (.ident "ab") =
      formatterToText ⟨80, 4, true⟩ (.ident "ab") :=
  ⟨rfl, rfl, (claim7_single_line ⟨80, 4, true⟩ (.ident "ab") rfl rfl).1,
    (claim7_single_line ⟨80, 4, true⟩ (.ident "ab") rfl rfl).2⟩

/-! C1 — the amended parenthesization rule. -/

theorem fromInfixSubforms_pair (p : Nat) (x y : Expression) :
    fromInfixSubforms p [x, y] true =
      [(fromExpression x).encapsulate (decide (x.precedence_ < p)) true,
       (fromExpression y).encapsulate (decide (y.precedence_ ≤ p)) true] := rfl

theorem infixFormMake_both (s : String) (subs : List TextualForm) :
    InfixForm.make s InfixPadding.both subs = .infForm s .both subs := rfl

theorem fromExpression_op_pair (o : Operator) (x y : Expression) :
    fromExpression (.operation o [x, y]) =
      InfixForm.make o.symbol (infixPaddingOf o)
        (fromInfixSubforms o.precedence [x, y] true) := rfl

theorem encapsulate_false (f : TextualForm) (sl : Bool) :
    f.encapsulate false sl = f := rfl

theorem encapsulate_true (f : TextualForm) (sl : Bool) :
    f.encapsulate true sl = .bracketedForm BRACKETS_ROUND f sl := rfl

/-- Atomic expressions are never encapsulated: their `MAX_PRECEDENCE` is
above every operator's precedence. -/
theorem ident_prec_lt (o : Operator) (u : String) :
    decide ((Expression.ident u).precedence_ < o.precedence) = false :=
  decide_eq_false (by
    show ¬ (MAX_PRECEDENCE < o.precedence)
    have := Operator.precedence_le o
    unfold MAX_PRECEDENCE
    omega)

theorem ident_prec_le (o : Operator) (u : String) :
    decide ((Expression.ident u).precedence_ ≤ o.precedence) = false :=
  decide_eq_false (by
    show ¬ (MAX_PRECEDENCE ≤ o.precedence)
    have := Operator.precedence_le o
    unfold MAX_PRECEDENCE
    omega)

/-- C1 (amended): an infix child is parenthesized exactly when it binds
strictly looser than its parent, or when it sits at a non-first operand
position and ties its parent's precedence — stated for any two distinct
both-padded binary operators over atomic operands, with the parenthesized
and unparenthesized renderings per the precedence comparison; and the
claim's concrete examples: `x + y * z` renders without parentheses around
the product, `(x + y) * z` with parentheses around the sum. -/
theorem claim1_parenthesization :
    (∀ (o1 o2 : Operator) (a b c : String),
      o1.kind = OperatorKind.binary → o2.kind = OperatorKind.binary →
      infixPaddingOf o1 = InfixPadding.both →
      infixPaddingOf o2 = InfixPadding.both →
      o2 ≠ o1 →
      (formatterToText ⟨80, 4, true⟩
          (.operation o1 [.ident a, .operation o2 [.ident b, .ident c]]) =
        if o2.precedence ≤ o1.precedence
        then a ++ " " ++ o1.symbol ++ " " ++ "(" ++ b ++ " " ++ o2.symbol
          ++ " " ++ c ++ ")"
        else a ++ " " ++ o1.symbol ++ " " ++ b ++ " " ++ o2.symbol ++ " " ++ c) ∧
      (formatterToText ⟨80, 4, true⟩
          (.operation o1 [.operation o2 [.ident a, .ident b], .ident c]) =
        if o2.precedence < o1.precedence
        then "(" ++ a ++ " " ++ o2.symbol ++ " " ++ b ++ ")" ++ " " ++ o1.symbol
          ++ " " ++ c
        else a ++ " " ++ o2.symbol ++ " " ++ b ++ " " ++ o1.symbol ++ " " ++ c)) ∧
    formatterToText ⟨80, 4, true⟩
      (.operation Op.ADD [.ident "x", .operation Op.MUL [.ident "y", .ident "z"]]) =
      "x + y * z" ∧
    formatterToText ⟨80, 4, true⟩
      (.operation Op.MUL [.operation Op.ADD [.ident "x", .ident "y"], .ident "z"]) =
      "(x + y) * z" := by
  refine ⟨?_, rfl, rfl⟩
  intro o1 o2 a b c hk1 hk2 hp1 hp2 hne
  have hs1 : ¬ o1.symbol = "" := symbol_ne_of_both o1 hk1 hp1
  have hs2 : ¬ o2.symbol = "" := symbol_ne_of_both o2 hk2 hp2
  have hinner : ∀ u v : String,
      fromExpression (.operation o2 [.ident u, .ident v]) =
        .infForm o2.symbol .both [.atomicForm u, .atomicForm v] := by
    intro u v
    rw [fromExpression_op_pair, hp2, infixFormMake_both, fromInfixSubforms_pair,
      ident_prec_lt, ident_prec_le, encapsulate_false, encapsulate_false]
    rfl
  constructor
  · have hform : fromExpression
        (.operation o1 [.ident a, .operation o2 [.ident b, .ident c]]) =
        .infForm o1.symbol .both
          [.atomicForm a,
           (TextualForm.infForm o2.symbol .both
               [.atomicForm b, .atomicForm c]).encapsulate
             (decide (o2.precedence ≤ o1.precedence)) true] := by
      rw [fromExpression_op_pair, hp1, infixFormMake_both, fromInfixSubforms_pair,
        ident_prec_lt, encapsulate_false, hinner]
      rfl
    show TextualForm.toText _ _ = _
    rw [hform]
    show toSingleLine (.infForm o1.symbol .both
      [.atomicForm a,
       (TextualForm.infForm o2.symbol .both
           [.atomicForm b, .atomicForm c]).encapsulate
         (decide (o2.precedence ≤ o1.precedence)) true]) = _
    by_cases hd : o2.precedence ≤ o1.precedence
    · rw [decide_eq_true hd, encapsulate_true, if_pos hd]
      show joinStr (if o1.symbol = "" then ""
          else " " ++ o1.symbol ++ " ")
        [a, "(" ++ toSingleLine (.infForm o2.symbol .both
            [.atomicForm b, .atomicForm c]) ++ ")"] = _
      rw [if_neg hs1]
      show a ++ (" " ++ o1.symbol ++ " ") ++
        ("(" ++ joinStr (if o2.symbol = "" then ""
            else " " ++ o2.symbol ++ " ") [b, c] ++ ")") = _
      rw [if_neg hs2]
      show a ++ (" " ++ o1.symbol ++ " ") ++
        ("(" ++ (b ++ (" " ++ o2.symbol ++ " ") ++ c) ++ ")") = _
      simp only [String.append_assoc]
    · rw [decide_eq_false hd, encapsulate_false, if_neg hd]
      show joinStr (if o1.symbol = "" then ""
          else " " ++ o1.symbol ++ " ")
        [a, toSingleLine (.infForm o2.symbol .both
            [.atomicForm b, .atomicForm c])] = _
      rw [if_neg hs1]
      show a ++ (" " ++ o1.symbol ++ " ") ++
        joinStr (if o2.symbol = "" then ""
          else " " ++ o2.symbol ++ " ") [b, c] = _
      rw [if_neg hs2]
      show a ++ (" " ++ o1.symbol ++ " ") ++
        (b ++ (" " ++ o2.symbol ++ " ") ++ c) = _
      simp only [String.append_assoc]
  · have hform : fromExpression
        (.operation o1 [.operation o2 [.ident a, .ident b], .ident c]) =
        .infForm o1.symbol .both
          [(TextualForm.infForm o2.symbol .both
               [.atomicForm a, .atomicForm b]).encapsulate
             (decide (o2.precedence < o1.precedence)) true,
           .atomicForm c] := by
      rw [fromExpression_op_pair, hp1, infixFormMake_both, fromInfixSubforms_pair,
        ident_prec_le, encapsulate_false, hinner]
      rfl
    show TextualForm.toText _ _ = _
    rw [hform]
    show toSingleLine (.infForm o1.symbol .both
      [(TextualForm.infForm o2.symbol .both
           [.atomicForm a, .atomicForm b]).encapsulate
         (decide (o2.precedence < o1.precedence)) true,
       .atomicForm c]) = _
    by_cases hd : o2.precedence < o1.precedence
    · rw [decide_eq_true hd, encapsulate_true, if_pos hd]
      show joinStr (if o1.symbol = "" then ""
          else " " ++ o1.symbol ++ " ")
        ["(" ++ toSingleLine (.infForm o2.symbol .both
            [.atomicForm a, .atomicForm b]) ++ ")", c] = _
      rw [if_neg hs1]
      show ("(" ++ joinStr (if o2.symbol = "" then ""
          else " " ++ o2.symbol ++ " ") [a, b] ++ ")") ++
        (" " ++ o1.symbol ++ " ") ++ c = _
      rw [if_neg hs2]
      show ("(" ++ (a ++ (" " ++ o2.symbol ++ " ") ++ b) ++ ")") ++
        (" " ++ o1.symbol ++ " ") ++ c = _
      simp only [String.append_assoc]
    · rw [decide_eq_false hd, encapsulate_false, if_neg hd]
      show joinStr (if o1.symbol = "" then ""
          else " " ++ o1.symbol ++ " ")
        [toSingleLine (.infForm o2.symbol .both
            [.atomicForm a, .atomicForm b]), c] = _
      rw [if_neg hs1]
      show joinStr (if o2.symbol = "" then ""
          else " " ++ o2.symbol ++ " ") [a, b] ++
        (" " ++ o1.symbol ++ " ") ++ c = _
      rw [if_neg hs2]
      show (a ++ (" " ++ o2.symbol ++ " ") ++ b) ++
        (" " ++ o1.symbol ++ " ") ++ c = _
      simp only [String.append_assoc]

/-- Witness for C1: the amended rule instantiated at MUL over ADD; the
tied-or-looser second-position comparison and the strictly-looser
first-position comparison both evaluate to parenthesizing the ADD child. -/
theorem claim1_witness :
    (formatterToText ⟨80, 4, true⟩
        (.operation Op.MUL [.ident "x", .operation Op.ADD [.ident "y", .ident "z"]]) =
      if Op.ADD.precedence ≤ Op.MUL.precedence
      then "x" ++ " " ++ Op.MUL.symbol ++ " " ++ "(" ++ "y" ++ " " ++ Op.ADD.symbol
        ++ " " ++ "z" ++ ")"
      else "x" ++ " " ++ Op.MUL.symbol ++ " " ++ "y" ++ " " ++ Op.ADD.symbol
        ++ " " ++ "z") ∧
    (formatterToText ⟨80, 4, true⟩
        (.operation Op.MUL [.operation Op.ADD [.ident "x", .ident "y"], .ident "z"]) =
      if Op.ADD.precedence < Op.MUL.precedence
      then "(" ++ "x" ++ " " ++ Op.ADD.symbol ++ " " ++ "y" ++ ")" ++ " "
        ++ Op.MUL.symbol ++ " " ++ "z"
      else "x" ++ " " ++ Op.ADD.symbol ++ " " ++ "y" ++ " " ++ Op.MUL.symbol
        ++ " " ++ "z") :=
  claim1_parenthesization.1 Op.MUL Op.ADD "x" "y" "z" rfl rfl rfl rfl (by decide)
